import Mathlib

/-!
Shallow embedding of `synchronization.py`, a one-way directory mirroring
tool.  Filesystem state is modelled as a tree of entries; the Python
functions `calculate_hash`, `same_files`, `synchronize_file`,
`synchronize_dir`, `src_to_rep`, `rep_to_src` and `synchronize` are
translated one-to-one into Lean functions over that tree.  Exceptions
(`IsADirectoryError`, `NotADirectoryError`, OS errors on special files)
are modelled with `Except`; an error value carries the partial replica
state and the log events emitted before the abort, mirroring the fact
that a Python exception leaves the filesystem and the log file in
whatever state the aborted pass reached.

The MD5 digest is not modelled bit-for-bit: every function is
parameterised over an arbitrary digest function
`hash : Content → Content`, so theorems quantify over the digest and
witnesses instantiate it (with `id`).
-/

namespace Synchronization

/-- A file's content as its list of bytes. -/
abbrev Content := List Nat

/-- A node of a filesystem tree: a regular file with its content, a
directory with its named children (in `os.listdir` order), or `other`,
a directory entry that is neither a regular file nor a directory
(e.g. a socket-type special file): `os.path.isfile` and `os.path.isdir`
are false for it while `os.path.exists` is true. -/
inductive Entry where
  | file (content : Content)
  | dir (children : List (String × Entry))
  | other

/-- The first child of the given name (real directories never hold two
children of the same name, so this is the directory lookup). -/
def lookup : List (String × Entry) → String → Option Entry
  | [], _ => none
  | (n, e) :: rest, name => if n = name then some e else lookup rest name

/-- Effect of `os.remove` / `shutil.rmtree` on a directory's child list:
drop the bindings of that name. -/
def eraseKey (l : List (String × Entry)) (name : String) : List (String × Entry) :=
  l.filter (fun x => x.1 != name)

/-- Overwriting the entry of a name in place (appending when absent):
the effect of writing a file at an existing path. -/
def setEntry : List (String × Entry) → String → Entry → List (String × Entry)
  | [], name, e => [(name, e)]
  | (n, e0) :: rest, name, e =>
    if n = name then (n, e) :: rest else (n, e0) :: setEntry rest name e

/-- The I/O errors the modelled operations can raise. -/
inductive Err where
  | isADirectoryError
  | notADirectoryError
  | ioError
deriving DecidableEq, Repr

/-- A log event: the action label exactly as `log` writes it, and the
affected replica path (root label followed by the path components). -/
abbrev Event := String × List String

/-- Outcome of a mutating routine: the updated replica tree and the log
events, or an error together with the partial replica tree and the
events emitted before the exception was raised. -/
abbrev SyncOutcome := Except (Err × Entry × List Event) (Entry × List Event)

/-- `get_dir_content` (`os.listdir`): the children of a directory;
raises `NotADirectoryError` on anything else. -/
def get_dir_content : Entry → Except Err (List (String × Entry))
  | .dir l => .ok l
  | _ => .error .notADirectoryError

/-- `os.path.getsize`. For a directory it returns the directory
inode's `st_size`, a filesystem-dependent value fixed here at 4096 (the
common ext4 value); for a special file it is 0. -/
def getsize : Entry → Nat
  | .file c => c.length
  | .dir _ => 4096
  | .other => 0

/-- `calculate_hash`: digest of the file's full byte stream.  `open`
on a directory raises `IsADirectoryError`; on a socket-type special
file it raises an `OSError`. -/
def calculate_hash (hash : Content → Content) : Entry → Except Err Content
  | .file c => .ok (hash c)
  | .dir _ => .error .isADirectoryError
  | .other => .error .ioError

/-- `same_files`: compare sizes first; only when they agree are the two
digests computed and compared.  Pure: it touches no replica state and
emits no event (its type returns no tree and no event list). -/
def same_files (hash : Content → Content) (src rep : Entry) : Except Err Bool :=
  if getsize src ≠ getsize rep then .ok false
  else
    match calculate_hash hash src, calculate_hash hash rep with
    | .error e, _ => .error e
    | .ok _, .error e => .error e
    | .ok h1, .ok h2 => .ok (h1 == h2)

/-- `synchronize_file src_path rep_path file log_file`, for a source
file of content `src` and the replica directory entry `rep` at
`rep_path` (a non-directory `rep` models the path conflict where
`rep_path` exists but is not a directory: creating or copying under it
raises `NotADirectoryError`). -/
def synchronize_file (hash : Content → Content) (src : Content) (rep : Entry)
    (repPath : List String) (name : String) : SyncOutcome :=
  match rep with
  | .dir l =>
    if src.length = 0 then
      -- empty source file: os.remove an existing replica entry, then
      -- open(rep_file, 'w').close() and log, unconditionally
      match lookup l name with
      | some (.dir _) => .error (.isADirectoryError, rep, [])  -- os.remove on a directory
      | _ =>
        .ok (.dir (eraseKey l name ++ [(name, .file [])]),
             [("Created empty file", repPath ++ [name])])
    else
      match lookup l name with
      | none =>
        -- shutil.copy2 to a fresh path
        .ok (.dir (l ++ [(name, .file src)]), [("Created", repPath ++ [name])])
      | some e =>
        match same_files hash (.file src) e with
        | .error err => .error (err, rep, [])
        | .ok true => .ok (rep, [])
        | .ok false =>
          match e with
          | .file _ =>
            .ok (.dir (setEntry l name (.file src)), [("Updated", repPath ++ [name])])
          | .dir sub =>
            -- shutil.copy2 with an existing directory as destination
            -- copies into the directory under the source's basename;
            -- the log line still names rep_file
            .ok (.dir (setEntry l name (.dir (setEntry sub name (.file src)))),
                 [("Updated", repPath ++ [name])])
          | .other => .error (.ioError, rep, [])  -- open on a special file
  | _ => .error (.notADirectoryError, rep, [])

mutual

/-- `src_to_rep`: list the source directory and dispatch on each item's
type; `os.listdir` on a non-directory raises. -/
def src_to_rep (hash : Content → Content) (src rep : Entry)
    (repPath : List String) : SyncOutcome :=
  match get_dir_content src with
  | .error err => .error (err, rep, [])
  | .ok items => src_to_rep_items hash items rep repPath

/-- The body of `src_to_rep`'s `for item in src_lst` loop: thread the
replica state and the emitted events through the items; an exception
aborts the loop with the state and events reached so far.  Items that
are neither regular files nor directories fall through both branches. -/
def src_to_rep_items (hash : Content → Content) :
    List (String × Entry) → Entry → List String → SyncOutcome
  | [], rep, _ => .ok (rep, [])
  | (name, e) :: rest, rep, repPath =>
    let step : SyncOutcome :=
      match e with
      | .file c => synchronize_file hash c rep repPath name
      | .dir _ => synchronize_dir hash e rep repPath name
      | .other => .ok (rep, [])
    match step with
    | .error out => .error out
    | .ok (rep1, ev1) =>
      match src_to_rep_items hash rest rep1 repPath with
      | .error (err, rep2, ev2) => .error (err, rep2, ev1 ++ ev2)
      | .ok (rep2, ev2) => .ok (rep2, ev1 ++ ev2)

/-- `synchronize_dir`: create the replica directory when
`os.path.exists` is false (logging before the recursive call), then
recurse into the pair.  The recursive `src_to_rep(src_dir, rep_dir)`
call is inlined to its loop body (`src_dir` is known to be a
directory, so its `os.listdir` cannot fail).  When the replica parent
is not a directory, `os.makedirs` under it raises. -/
def synchronize_dir (hash : Content → Content) (srcE rep : Entry)
    (repPath : List String) (name : String) : SyncOutcome :=
  match srcE with
  | .dir sub =>
    match rep with
    | .dir l =>
      match lookup l name with
      | none =>
        match src_to_rep_items hash sub (.dir []) (repPath ++ [name]) with
        | .error (err, child, ev) =>
          .error (err, .dir (l ++ [(name, child)]),
                  ("Created directory", repPath ++ [name]) :: ev)
        | .ok (child, ev) =>
          .ok (.dir (l ++ [(name, child)]),
               ("Created directory", repPath ++ [name]) :: ev)
      | some child =>
        match src_to_rep_items hash sub child (repPath ++ [name]) with
        | .error (err, child1, ev) => .error (err, .dir (setEntry l name child1), ev)
        | .ok (child1, ev) => .ok (.dir (setEntry l name child1), ev)
    | _ => .error (.notADirectoryError, rep, [])
  | _ => .ok (rep, [])  -- unreachable: the caller checked os.path.isdir

end

/-- `os.path.exists(os.path.join(src_path, item))`: under a
non-directory no path exists. -/
def path_exists_in : Entry → String → Bool
  | .dir l, name => (lookup l name).isSome
  | _, _ => false

/-- The body of `rep_to_src`'s loop: delete (and log) every replica
item with no source entry of the same name; `os.remove` for files,
`shutil.rmtree` for directories, and items that are neither fall
through both branches.  The loop itself raises nothing. -/
def rep_to_src_items (src : Entry) :
    List (String × Entry) → List String → List (String × Entry) × List Event
  | [], _ => ([], [])
  | (name, e) :: rest, repPath =>
    let tail := rep_to_src_items src rest repPath
    if path_exists_in src name then ((name, e) :: tail.1, tail.2)
    else
      match e with
      | .file _ => (tail.1, ("Deleted", repPath ++ [name]) :: tail.2)
      | .dir _ => (tail.1, ("Deleted", repPath ++ [name]) :: tail.2)
      | .other => ((name, e) :: tail.1, tail.2)

/-- `rep_to_src`: list the replica directory and prune it against the
source.  It never recurses into children. -/
def rep_to_src (src rep : Entry) (repPath : List String) : SyncOutcome :=
  match get_dir_content rep with
  | .error err => .error (err, rep, [])
  | .ok l =>
    let out := rep_to_src_items src l repPath
    .ok (.dir out.1, out.2)

/-- `synchronize`: Pass 1 (`src_to_rep`) then Pass 2 (`rep_to_src`);
an exception in either pass propagates with the partial state. -/
def synchronize (hash : Content → Content) (src rep : Entry)
    (repPath : List String) : SyncOutcome :=
  match src_to_rep hash src rep repPath with
  | .error out => .error out
  | .ok (rep1, ev1) =>
    match rep_to_src src rep1 repPath with
    | .error (err, rep2, ev2) => .error (err, rep2, ev1 ++ ev2)
    | .ok (rep2, ev2) => .ok (rep2, ev1 ++ ev2)

/-! ### Predicates used to state properties of the passes -/

/-- True exactly for entries that are neither regular files nor
directories. -/
def isOther : Entry → Bool
  | .other => true
  | _ => false

mutual

/-- Well-formed filesystem tree: no directory holds two children of
the same name (true of every real directory). -/
def wfEntry : Entry → Bool
  | .file _ => true
  | .other => true
  | .dir l => decide ((l.map Prod.fst).Nodup) && wfChildren l

def wfChildren : List (String × Entry) → Bool
  | [] => true
  | (_, e) :: rest => wfEntry e && wfChildren rest

end

/-- Well-formedness of a directory's child list. -/
def wfItems (l : List (String × Entry)) : Bool :=
  decide ((l.map Prod.fst).Nodup) && wfChildren l

mutual

/-- Type compatibility of one source entry with the replica entry (if
any) found under the same name: regular files may meet a file or
nothing, directories may meet a recursively compatible directory or
nothing, and source entries of other kinds impose nothing (Pass 1
skips them). -/
def compatEntry : Entry → Option Entry → Bool
  | .file _, none => true
  | .file _, some (.file _) => true
  | .file _, some _ => false
  | .dir _, none => true
  | .dir sub, some (.dir m1) => compatList sub m1
  | .dir _, some _ => false
  | .other, _ => true

/-- Type compatibility of a source child list with a replica child
list. -/
def compatList : List (String × Entry) → List (String × Entry) → Bool
  | [], _ => true
  | (name, e) :: rest, m => compatEntry e (lookup m name) && compatList rest m

end

mutual

/-- One source entry is mirrored by the replica entry (if any) found
under the same name: a source file by a replica file that `same_files`
accepts (equal length, equal digest), a source directory by a replica
directory that recursively mirrors it; source entries of other kinds
impose nothing. -/
def mirrorsEntry (hash : Content → Content) : Entry → Option Entry → Bool
  | .file c, some (.file c1) => c.length == c1.length && hash c == hash c1
  | .file _, _ => false
  | .dir sub, some (.dir m1) => mirrorsList hash sub m1
  | .dir _, _ => false
  | .other, _ => true

/-- The replica child list mirrors the source child list. -/
def mirrorsList (hash : Content → Content) :
    List (String × Entry) → List (String × Entry) → Bool
  | [], _ => true
  | (name, e) :: rest, m => mirrorsEntry hash e (lookup m name) && mirrorsList hash rest m

end

mutual

/-- The events Pass 1 emits for one source entry whose replica already
mirrors it: a `Created empty file` event when it is a zero-length
file, the recursive events when it is a directory, nothing else. -/
def emptyFileEventsEntry : String → Entry → List String → List Event
  | name, .file c, p => if c.length = 0 then [("Created empty file", p ++ [name])] else []
  | name, .dir sub, p => emptyFileEventsList sub (p ++ [name])
  | _, .other, _ => []

/-- The events Pass 1 emits on a source child list whose replica
already mirrors it, in traversal order. -/
def emptyFileEventsList : List (String × Entry) → List String → List Event
  | [], _ => []
  | (name, e) :: rest, p => emptyFileEventsEntry name e p ++ emptyFileEventsList rest p

end

mutual

/-- Whether a source entry is or contains a zero-length file. -/
def hasEmptyFileEntry : Entry → Bool
  | .file c => c.length == 0
  | .dir sub => hasEmptyFileList sub
  | .other => false

/-- Whether a source child list contains a zero-length file anywhere. -/
def hasEmptyFileList : List (String × Entry) → Bool
  | [] => false
  | (_, e) :: rest => hasEmptyFileEntry e || hasEmptyFileList rest

end

/-- The condition under which `rep_to_src` keeps a replica item: its
name exists in the source, or it is neither a file nor a directory. -/
def keepEntry (src : Entry) (x : String × Entry) : Bool :=
  path_exists_in src x.1 || isOther x.2

/-! ### Lemmas about the association-list primitives -/

theorem lookup_append (l m : List (String × Entry)) (x : String) :
    lookup (l ++ m) x =
      match lookup l x with
      | some e => some e
      | none => lookup m x := by
  induction l with
  | nil => simp [lookup]
  | cons h t ih =>
    obtain ⟨n, e⟩ := h
    by_cases hn : n = x <;> simp [lookup, hn, ih]

theorem lookup_eraseKey (l : List (String × Entry)) (name x : String) :
    lookup (eraseKey l name) x = if x = name then none else lookup l x := by
  induction l with
  | nil => simp [lookup, eraseKey]
  | cons h t ih =>
    obtain ⟨n, e⟩ := h
    by_cases hn : n = name <;> by_cases hx : n = x <;>
      simp_all [lookup, eraseKey, List.filter_cons]

theorem lookup_erase_append (l : List (String × Entry)) (name x : String) (e : Entry) :
    lookup (eraseKey l name ++ [(name, e)]) x =
      if x = name then some e else lookup l x := by
  rw [lookup_append, lookup_eraseKey]
  by_cases hx : x = name
  · simp [hx, lookup]
  · have hx2 : ¬ name = x := fun h => hx h.symm
    simp only [if_neg hx]
    cases hl : lookup l x <;> simp [lookup, hx2, hl]

theorem lookup_append_single (l : List (String × Entry)) (name x : String) (e : Entry)
    (h : lookup l name = none) :
    lookup (l ++ [(name, e)]) x = if x = name then some e else lookup l x := by
  rw [lookup_append]
  by_cases hx : x = name
  · subst hx; simp [h, lookup]
  · have hx2 : ¬ name = x := fun h2 => hx h2.symm
    cases hl : lookup l x <;> simp [lookup, hx, hx2, hl]

theorem lookup_setEntry (l : List (String × Entry)) (name x : String) (e : Entry) :
    lookup (setEntry l name e) x = if x = name then some e else lookup l x := by
  induction l with
  | nil =>
    by_cases hx : x = name
    · subst hx; simp [setEntry, lookup]
    · have hx2 : ¬ name = x := fun h2 => hx h2.symm
      simp [setEntry, lookup, hx, hx2]
  | cons h t ih =>
    obtain ⟨n, e0⟩ := h
    by_cases hn : n = name
    · subst hn
      by_cases hx : n = x
      · subst hx; simp [setEntry, lookup]
      · have hx2 : ¬ x = n := fun h2 => hx h2.symm
        simp [setEntry, lookup, hx, hx2]
    · by_cases hx : n = x
      · subst hx
        simp [setEntry, lookup, hn]
      · simp [setEntry, lookup, hn, hx, ih]

theorem mem_eraseKey (l : List (String × Entry)) (name : String)
    (x : String × Entry) (h : x ∈ eraseKey l name) : x ∈ l :=
  (List.mem_filter.mp h).1

theorem mem_setEntry (l : List (String × Entry)) (name : String) (e : Entry)
    (x : String × Entry) (h : x ∈ setEntry l name e) :
    x ∈ l ∨ x = (name, e) := by
  induction l with
  | nil => simp [setEntry] at h; simp [h]
  | cons h0 t ih =>
    obtain ⟨n, e0⟩ := h0
    by_cases hn : n = name
    · subst hn
      simp [setEntry] at h
      rcases h with h | h
      · right; simp [h]
      · left; simp [h]
    · simp [setEntry, hn] at h
      rcases h with h | h
      · left; simp [h]
      · rcases ih h with h2 | h2
        · left; simp [h2]
        · right; exact h2

theorem lookup_isSome_of_mem_names (l : List (String × Entry)) (n : String)
    (h : n ∈ l.map Prod.fst) : (lookup l n).isSome = true := by
  induction l with
  | nil => simp at h
  | cons h0 t ih =>
    obtain ⟨n0, e0⟩ := h0
    by_cases hn : n0 = n
    · simp [lookup, hn]
    · simp at h
      rcases h with h | h
      · exact absurd h.symm (by simpa using hn)
      · simpa [lookup, hn] using ih (by simpa using h)

/-! ### Structural facts about the predicates -/

theorem wfItems_cons (n : String) (e : Entry) (rest : List (String × Entry))
    (h : wfItems ((n, e) :: rest) = true) :
    wfEntry e = true ∧ wfItems rest = true ∧ n ∉ rest.map Prod.fst := by
  simp only [wfItems, wfChildren, Bool.and_eq_true, decide_eq_true_eq] at h ⊢
  obtain ⟨hnd, he, hr⟩ := h
  simp only [List.map_cons, List.nodup_cons] at hnd
  exact ⟨he, ⟨by simpa using hnd.2, hr⟩, hnd.1⟩

theorem wfEntry_dir (l : List (String × Entry)) (h : wfEntry (.dir l) = true) :
    wfItems l = true := h

theorem compatEntry_none (e : Entry) : compatEntry e none = true := by
  cases e <;> rfl

theorem compatList_nil (items : List (String × Entry)) :
    compatList items [] = true := by
  induction items with
  | nil => rfl
  | cons h t ih =>
    obtain ⟨n, e⟩ := h
    simp [compatList, lookup, compatEntry_none, ih]

theorem compatList_congr (items m m1 : List (String × Entry))
    (h : ∀ n, n ∈ items.map Prod.fst → lookup m n = lookup m1 n) :
    compatList items m = compatList items m1 := by
  induction items with
  | nil => rfl
  | cons h0 t ih =>
    obtain ⟨n, e⟩ := h0
    have hn : lookup m n = lookup m1 n := h n (by simp)
    have ht : ∀ x, x ∈ t.map Prod.fst → lookup m x = lookup m1 x :=
      fun x hx => h x (by simp [hx])
    simp [compatList, hn, ih ht]

theorem mirrorsList_congr (hash : Content → Content)
    (items m m1 : List (String × Entry))
    (h : ∀ n, n ∈ items.map Prod.fst → lookup m n = lookup m1 n) :
    mirrorsList hash items m = mirrorsList hash items m1 := by
  induction items with
  | nil => rfl
  | cons h0 t ih =>
    obtain ⟨n, e⟩ := h0
    have hn : lookup m n = lookup m1 n := h n (by simp)
    have ht : ∀ x, x ∈ t.map Prod.fst → lookup m x = lookup m1 x :=
      fun x hx => h x (by simp [hx])
    simp [mirrorsList, hn, ih ht]

/-! ### Characterization of Pass 2 -/

theorem rep_to_src_items_eq (src : Entry) (l : List (String × Entry)) (p : List String) :
    rep_to_src_items src l p =
      (l.filter (keepEntry src),
       (l.filter (fun x => !keepEntry src x)).map (fun x => ("Deleted", p ++ [x.1]))) := by
  induction l with
  | nil => rfl
  | cons h t ih =>
    obtain ⟨n, e⟩ := h
    by_cases hex : path_exists_in src n = true
    · cases e <;>
        simp [rep_to_src_items, ih, keepEntry, hex, List.filter_cons]
    · have hex2 : path_exists_in src n = false := by simpa using hex
      cases e <;>
        simp [rep_to_src_items, ih, keepEntry, hex2, isOther, List.filter_cons]

theorem lookup_filter_keep (src : Entry) (l : List (String × Entry)) (n : String)
    (h : path_exists_in src n = true) :
    lookup (l.filter (keepEntry src)) n = lookup l n := by
  induction l with
  | nil => rfl
  | cons h0 t ih =>
    obtain ⟨n0, e0⟩ := h0
    by_cases hn : n0 = n
    · subst hn
      have : keepEntry src (n0, e0) = true := by simp [keepEntry, h]
      simp [List.filter_cons, this, lookup]
    · rw [List.filter_cons]
      by_cases hk : keepEntry src (n0, e0) = true <;>
        simp [hk, lookup, hn, ih]

theorem filter_keep_all (src : Entry) (l : List (String × Entry))
    (h : ∀ x ∈ l, keepEntry src x = true) :
    l.filter (keepEntry src) = l ∧ l.filter (fun x => !keepEntry src x) = [] := by
  constructor
  · exact List.filter_eq_self.mpr h
  · rw [List.filter_eq_nil_iff]
    intro x hx
    simp [h x hx]

theorem emptyFileEventsList_of_no_empty :
    ∀ (k : Nat) (items : List (String × Entry)) (p : List String),
      sizeOf items ≤ k → hasEmptyFileList items = false →
      emptyFileEventsList items p = [] := by
  intro k
  induction k with
  | zero =>
    intro items p hs _
    cases items <;> simp_arith at hs
  | succ k ih =>
    intro items p hs hne
    match items with
    | [] => rfl
    | (name, .file c) :: rest =>
      simp only [hasEmptyFileList, hasEmptyFileEntry, Bool.or_eq_false_iff] at hne
      have h1 : sizeOf rest ≤ k := by simp_arith at hs; omega
      have hc : ¬ c.length = 0 := by simpa using hne.1
      simp [emptyFileEventsList, emptyFileEventsEntry, hc, ih rest p h1 hne.2]
    | (name, .dir sub) :: rest =>
      simp only [hasEmptyFileList, hasEmptyFileEntry, Bool.or_eq_false_iff] at hne
      have hs2 : 1 + (1 + sizeOf name + (1 + sizeOf sub)) + sizeOf rest ≤ k + 1 := by
        simpa [List.cons.sizeOf_spec, Prod.mk.sizeOf_spec, Entry.dir.sizeOf_spec] using hs
      have h1 : sizeOf sub ≤ k := by omega
      have h2 : sizeOf rest ≤ k := by omega
      simp [emptyFileEventsList, emptyFileEventsEntry,
            ih sub (p ++ [name]) h1 hne.1, ih rest p h2 hne.2]
    | (name, .other) :: rest =>
      have h1 : sizeOf rest ≤ k := by simp_arith at hs; omega
      simp [emptyFileEventsList, emptyFileEventsEntry, hasEmptyFileList, hasEmptyFileEntry] at hne ⊢
      exact ih rest p h1 hne

/-! ### Pass 1 on a compatible replica: success and mirror establishment -/

theorem same_files_files (hash : Content → Content) (c c1 : Content) :
    same_files hash (.file c) (.file c1) =
      .ok (c.length == c1.length && hash c == hash c1) := by
  by_cases h : c.length = c1.length <;>
    simp [same_files, getsize, calculate_hash, h]

theorem mirrorsEntry_file (hash : Content → Content) (c c1 : Content) :
    mirrorsEntry hash (.file c) (some (.file c1)) =
      (c.length == c1.length && hash c == hash c1) := rfl

theorem mirrorsEntry_dir (hash : Content → Content) (sub m1 : List (String × Entry)) :
    mirrorsEntry hash (.dir sub) (some (.dir m1)) = mirrorsList hash sub m1 := rfl

theorem mirrorsEntry_other (hash : Content → Content) (o : Option Entry) :
    mirrorsEntry hash .other o = true := by
  cases o with
  | none => rfl
  | some e => cases e <;> rfl

theorem mirrorsList_cons (hash : Content → Content) (name : String) (e : Entry)
    (rest m : List (String × Entry)) :
    mirrorsList hash ((name, e) :: rest) m =
      (mirrorsEntry hash e (lookup m name) && mirrorsList hash rest m) := rfl

theorem pass1_main :
    ∀ (k : Nat) (hash : Content → Content) (items l : List (String × Entry)) (p : List String),
      sizeOf items ≤ k →
      wfItems items = true →
      compatList items l = true →
      ∃ l1 ev,
        src_to_rep_items hash items (.dir l) p = .ok (.dir l1, ev) ∧
        mirrorsList hash items l1 = true ∧
        (∀ n, n ∉ items.map Prod.fst → lookup l1 n = lookup l n) := by
  intro k
  induction k with
  | zero =>
    intro hash items l p hs _ _
    cases items <;> simp_arith at hs
  | succ k ih =>
    intro hash items l p hs hwf hcompat
    match items with
    | [] =>
      exact ⟨l, [], rfl, rfl, fun n _ => rfl⟩
    | (name, e) :: rest =>
      obtain ⟨hwe, hwrest, hnotin⟩ := wfItems_cons name e rest hwf
      simp only [compatList, Bool.and_eq_true] at hcompat
      obtain ⟨hc1, hcrest⟩ := hcompat
      have hsrest : sizeOf rest ≤ k := by simp_arith at hs; omega
      -- the continuation: once the head step succeeded with state l',
      -- touching no name but `name` and leaving a mirrored entry there,
      -- the rest of the loop finishes the job
      have cont : ∀ (l' : List (String × Entry)),
          (∀ x, x ≠ name → lookup l' x = lookup l x) →
          mirrorsEntry hash e (lookup l' name) = true →
          ∃ l2 ev2,
            src_to_rep_items hash rest (.dir l') p = .ok (.dir l2, ev2) ∧
            mirrorsList hash ((name, e) :: rest) l2 = true ∧
            (∀ n, n ∉ ((name, e) :: rest).map Prod.fst → lookup l2 n = lookup l n) := by
        intro l' hupd hmir
        have hcrest' : compatList rest l' = true := by
          rw [compatList_congr rest l' l
            (fun n hn => hupd n (fun he => hnotin (he ▸ hn)))]
          exact hcrest
        obtain ⟨l2, ev2, hrun, hmirrest, hframe⟩ := ih hash rest l' p hsrest hwrest hcrest'
        refine ⟨l2, ev2, hrun, ?_, ?_⟩
        · rw [mirrorsList_cons, Bool.and_eq_true]
          refine ⟨?_, hmirrest⟩
          rw [hframe name hnotin]
          exact hmir
        · intro n hn
          simp only [List.map_cons, List.mem_cons] at hn
          push_neg at hn
          rw [hframe n (by simpa using hn.2), hupd n (by simpa using hn.1)]
      -- case split on the head entry
      cases e with
      | other =>
        obtain ⟨l2, ev2, hrun, hmir, hframe⟩ :=
          cont l (fun x _ => rfl) (mirrorsEntry_other hash _)
        refine ⟨l2, ev2, ?_, hmir, hframe⟩
        simp [src_to_rep_items, hrun]
      | file c =>
        by_cases hc : c.length = 0
        · -- zero-length source file: the replica entry (file or absent) is replaced
          have hc0 : c = [] := List.length_eq_zero.mp hc
          subst hc0
          have harm :
              synchronize_file hash [] (.dir l) p name =
                .ok (.dir (eraseKey l name ++ [(name, .file [])]),
                     [("Created empty file", p ++ [name])]) := by
            cases hl : lookup l name with
            | none => simp [synchronize_file, hl]
            | some e2 =>
              cases e2 with
              | file c1 => simp [synchronize_file, hl]
              | dir m1 => rw [hl] at hc1; simp [compatEntry] at hc1
              | other => rw [hl] at hc1; simp [compatEntry] at hc1
          obtain ⟨l2, ev2, hrun, hmir, hframe⟩ :=
            cont (eraseKey l name ++ [(name, .file [])])
              (fun x hx => by rw [lookup_erase_append]; simp [hx])
              (by rw [lookup_erase_append]; simp [mirrorsEntry_file])
          refine ⟨l2, [("Created empty file", p ++ [name])] ++ ev2, ?_, hmir, hframe⟩
          simp [src_to_rep_items, harm, hrun]
        · -- non-empty source file
          cases hl : lookup l name with
          | none =>
            have harm :
                synchronize_file hash c (.dir l) p name =
                  .ok (.dir (l ++ [(name, .file c)]), [("Created", p ++ [name])]) := by
              simp [synchronize_file, hc, hl]
            obtain ⟨l2, ev2, hrun, hmir, hframe⟩ :=
              cont (l ++ [(name, .file c)])
                (fun x hx => by rw [lookup_append_single l name x _ hl]; simp [hx])
                (by rw [lookup_append_single l name name _ hl]; simp [mirrorsEntry_file])
            refine ⟨l2, [("Created", p ++ [name])] ++ ev2, ?_, hmir, hframe⟩
            simp [src_to_rep_items, harm, hrun]
          | some e2 =>
            have hfile : ∃ c1, e2 = .file c1 := by
              rw [hl] at hc1
              cases e2 with
              | file c1 => exact ⟨c1, rfl⟩
              | dir m1 => simp [compatEntry] at hc1
              | other => simp [compatEntry] at hc1
            obtain ⟨c1, rfl⟩ := hfile
            cases hb : (c.length == c1.length && hash c == hash c1) with
            | true =>
              have harm :
                  synchronize_file hash c (.dir l) p name = .ok (.dir l, []) := by
                simp [synchronize_file, hc, hl, same_files_files, hb]
              obtain ⟨l2, ev2, hrun, hmir, hframe⟩ :=
                cont l (fun x _ => rfl) (by rw [hl, mirrorsEntry_file]; exact hb)
              refine ⟨l2, ev2, ?_, hmir, hframe⟩
              simp [src_to_rep_items, harm, hrun]
            | false =>
              have harm :
                  synchronize_file hash c (.dir l) p name =
                    .ok (.dir (setEntry l name (.file c)), [("Updated", p ++ [name])]) := by
                simp [synchronize_file, hc, hl, same_files_files, hb]
              obtain ⟨l2, ev2, hrun, hmir, hframe⟩ :=
                cont (setEntry l name (.file c))
                  (fun x hx => by rw [lookup_setEntry]; simp [hx])
                  (by rw [lookup_setEntry]; simp [mirrorsEntry_file])
              refine ⟨l2, [("Updated", p ++ [name])] ++ ev2, ?_, hmir, hframe⟩
              simp [src_to_rep_items, harm, hrun]
      | dir sub =>
        have hwsub : wfItems sub = true := wfEntry_dir sub hwe
        have hssub : sizeOf sub ≤ k := by
          have : 1 + (1 + sizeOf name + (1 + sizeOf sub)) + sizeOf rest ≤ k + 1 := by
            simpa [List.cons.sizeOf_spec, Prod.mk.sizeOf_spec, Entry.dir.sizeOf_spec] using hs
          omega
        cases hl : lookup l name with
        | none =>
          obtain ⟨sub1, ev0, hrun0, hmirsub, _⟩ :=
            ih hash sub [] (p ++ [name]) hssub hwsub (compatList_nil sub)
          have harm :
              synchronize_dir hash (.dir sub) (.dir l) p name =
                .ok (.dir (l ++ [(name, .dir sub1)]),
                     ("Created directory", p ++ [name]) :: ev0) := by
            simp [synchronize_dir, hl, hrun0]
          obtain ⟨l2, ev2, hrun, hmir, hframe⟩ :=
            cont (l ++ [(name, .dir sub1)])
              (fun x hx => by rw [lookup_append_single l name x _ hl]; simp [hx])
              (by rw [lookup_append_single l name name _ hl]; simp [mirrorsEntry_dir, hmirsub])
          refine ⟨l2, (("Created directory", p ++ [name]) :: ev0) ++ ev2, ?_, hmir, hframe⟩
          simp [src_to_rep_items, harm, hrun]
        | some e2 =>
          have hdir : ∃ m1, e2 = .dir m1 ∧ compatList sub m1 = true := by
            rw [hl] at hc1
            cases e2 with
            | file c1 => simp [compatEntry] at hc1
            | dir m1 => exact ⟨m1, rfl, hc1⟩
            | other => simp [compatEntry] at hc1
          obtain ⟨m1, rfl, hcsub⟩ := hdir
          obtain ⟨m2, ev0, hrun0, hmirsub, _⟩ :=
            ih hash sub m1 (p ++ [name]) hssub hwsub hcsub
          have harm :
              synchronize_dir hash (.dir sub) (.dir l) p name =
                .ok (.dir (setEntry l name (.dir m2)), ev0) := by
            simp [synchronize_dir, hl, hrun0]
          obtain ⟨l2, ev2, hrun, hmir, hframe⟩ :=
            cont (setEntry l name (.dir m2))
              (fun x hx => by rw [lookup_setEntry]; simp [hx])
              (by rw [lookup_setEntry]; simp [mirrorsEntry_dir, hmirsub])
          refine ⟨l2, ev0 ++ ev2, ?_, hmir, hframe⟩
          simp [src_to_rep_items, harm, hrun]

/-! ### Pass 1 on a mirrored replica: only empty-file events -/

theorem mirrorsEntry_file_none (hash : Content → Content) (c : Content) :
    mirrorsEntry hash (.file c) none = false := rfl

theorem mirrorsEntry_file_dirc (hash : Content → Content) (c : Content)
    (m1 : List (String × Entry)) :
    mirrorsEntry hash (.file c) (some (.dir m1)) = false := rfl

theorem mirrorsEntry_file_otherc (hash : Content → Content) (c : Content) :
    mirrorsEntry hash (.file c) (some .other) = false := rfl

theorem mirrorsEntry_dir_none (hash : Content → Content) (sub : List (String × Entry)) :
    mirrorsEntry hash (.dir sub) none = false := rfl

theorem mirrorsEntry_dir_filec (hash : Content → Content) (sub : List (String × Entry))
    (c : Content) :
    mirrorsEntry hash (.dir sub) (some (.file c)) = false := rfl

theorem mirrorsEntry_dir_otherc (hash : Content → Content) (sub : List (String × Entry)) :
    mirrorsEntry hash (.dir sub) (some .other) = false := rfl

theorem emptyFileEventsList_cons (name : String) (e : Entry)
    (rest : List (String × Entry)) (p : List String) :
    emptyFileEventsList ((name, e) :: rest) p =
      emptyFileEventsEntry name e p ++ emptyFileEventsList rest p := rfl

theorem emptyFileEventsEntry_file (name : String) (c : Content) (p : List String) :
    emptyFileEventsEntry name (.file c) p =
      if c.length = 0 then [("Created empty file", p ++ [name])] else [] := rfl

theorem emptyFileEventsEntry_dir (name : String) (sub : List (String × Entry))
    (p : List String) :
    emptyFileEventsEntry name (.dir sub) p = emptyFileEventsList sub (p ++ [name]) := rfl

theorem pass1_mirrored :
    ∀ (k : Nat) (hash : Content → Content) (items m : List (String × Entry)) (p : List String),
      sizeOf items ≤ k →
      wfItems items = true →
      mirrorsList hash items m = true →
      ∃ m2,
        src_to_rep_items hash items (.dir m) p = .ok (.dir m2, emptyFileEventsList items p) ∧
        (∀ n, n ∉ items.map Prod.fst → lookup m2 n = lookup m n) ∧
        (∀ x ∈ m2, x ∈ m ∨ (x.1 ∈ items.map Prod.fst ∧ isOther x.2 = false)) := by
  intro k
  induction k with
  | zero =>
    intro hash items m p hs _ _
    cases items <;> simp_arith at hs
  | succ k ih =>
    intro hash items m p hs hwf hmirrors
    match items with
    | [] =>
      exact ⟨m, rfl, fun n _ => rfl, fun x hx => Or.inl hx⟩
    | (name, e) :: rest =>
      obtain ⟨hwe, hwrest, hnotin⟩ := wfItems_cons name e rest hwf
      rw [mirrorsList_cons, Bool.and_eq_true] at hmirrors
      obtain ⟨hm1, hmrest⟩ := hmirrors
      have hsrest : sizeOf rest ≤ k := by simp_arith at hs; omega
      have cont : ∀ (m' : List (String × Entry)),
          (∀ x, x ≠ name → lookup m' x = lookup m x) →
          (∀ x, x ∈ m' → x ∈ m ∨ (x.1 = name ∧ isOther x.2 = false)) →
          ∃ m2,
            src_to_rep_items hash rest (.dir m') p =
              .ok (.dir m2, emptyFileEventsList rest p) ∧
            (∀ n, n ∉ ((name, e) :: rest).map Prod.fst → lookup m2 n = lookup m n) ∧
            (∀ x ∈ m2, x ∈ m ∨ (x.1 ∈ ((name, e) :: rest).map Prod.fst ∧ isOther x.2 = false)) := by
        intro m' hupd hmem
        have hmrest' : mirrorsList hash rest m' = true := by
          rw [mirrorsList_congr hash rest m' m
            (fun n hn => hupd n (fun he => hnotin (he ▸ hn)))]
          exact hmrest
        obtain ⟨m2, hrun, hframe, hmem2⟩ := ih hash rest m' p hsrest hwrest hmrest'
        refine ⟨m2, hrun, ?_, ?_⟩
        · intro n hn
          simp only [List.map_cons, List.mem_cons] at hn
          push_neg at hn
          rw [hframe n (by simpa using hn.2), hupd n (by simpa using hn.1)]
        · intro x hx
          rcases hmem2 x hx with hx2 | hx2
          · rcases hmem x hx2 with hx3 | hx3
            · exact Or.inl hx3
            · exact Or.inr ⟨by simp [hx3.1], hx3.2⟩
          · exact Or.inr ⟨by simp [hx2.1], hx2.2⟩
      cases e with
      | other =>
        obtain ⟨m2, hrun, hframe, hmem2⟩ :=
          cont m (fun x _ => rfl) (fun x hx => Or.inl hx)
        refine ⟨m2, ?_, hframe, hmem2⟩
        rw [emptyFileEventsList_cons]
        simp [src_to_rep_items, hrun, emptyFileEventsEntry]
      | file c =>
        -- the mirrored entry must be a file
        have hfile : ∃ c1, lookup m name = some (.file c1) := by
          cases hl : lookup m name with
          | none => rw [hl, mirrorsEntry_file_none] at hm1; exact absurd hm1 (by simp)
          | some e2 =>
            cases e2 with
            | file c1 => exact ⟨c1, rfl⟩
            | dir m1 => rw [hl, mirrorsEntry_file_dirc] at hm1; exact absurd hm1 (by simp)
            | other => rw [hl, mirrorsEntry_file_otherc] at hm1; exact absurd hm1 (by simp)
        obtain ⟨c1, hl⟩ := hfile
        rw [hl, mirrorsEntry_file] at hm1
        by_cases hc : c.length = 0
        · -- zero-length source file: event emitted even on a mirrored replica
          have harm :
              synchronize_file hash c (.dir m) p name =
                .ok (.dir (eraseKey m name ++ [(name, .file [])]),
                     [("Created empty file", p ++ [name])]) := by
            simp [synchronize_file, hc, hl]
          obtain ⟨m2, hrun, hframe, hmem2⟩ :=
            cont (eraseKey m name ++ [(name, .file [])])
              (fun x hx => by rw [lookup_erase_append]; simp [hx])
              (by
                intro x hx
                rcases List.mem_append.mp hx with hx2 | hx2
                · exact Or.inl (mem_eraseKey m name x hx2)
                · simp only [List.mem_singleton] at hx2
                  subst hx2
                  exact Or.inr ⟨rfl, rfl⟩)
          refine ⟨m2, ?_, hframe, hmem2⟩
          rw [emptyFileEventsList_cons, emptyFileEventsEntry_file, if_pos hc]
          simp [src_to_rep_items, harm, hrun]
        · -- non-empty mirrored file: same_files accepts, nothing happens
          have harm : synchronize_file hash c (.dir m) p name = .ok (.dir m, []) := by
            simp [synchronize_file, hc, hl, same_files_files, hm1]
          obtain ⟨m2, hrun, hframe, hmem2⟩ :=
            cont m (fun x _ => rfl) (fun x hx => Or.inl hx)
          refine ⟨m2, ?_, hframe, hmem2⟩
          rw [emptyFileEventsList_cons, emptyFileEventsEntry_file, if_neg hc]
          simp [src_to_rep_items, harm, hrun]
      | dir sub =>
        have hwsub : wfItems sub = true := wfEntry_dir sub hwe
        have hssub : sizeOf sub ≤ k := by
          have : 1 + (1 + sizeOf name + (1 + sizeOf sub)) + sizeOf rest ≤ k + 1 := by
            simpa [List.cons.sizeOf_spec, Prod.mk.sizeOf_spec, Entry.dir.sizeOf_spec] using hs
          omega
        have hdir : ∃ m1, lookup m name = some (.dir m1) ∧ mirrorsList hash sub m1 = true := by
          cases hl : lookup m name with
          | none => rw [hl, mirrorsEntry_dir_none] at hm1; exact absurd hm1 (by simp)
          | some e2 =>
            cases e2 with
            | file c1 => rw [hl, mirrorsEntry_dir_filec] at hm1; exact absurd hm1 (by simp)
            | dir m1 => rw [hl, mirrorsEntry_dir] at hm1; exact ⟨m1, rfl, hm1⟩
            | other => rw [hl, mirrorsEntry_dir_otherc] at hm1; exact absurd hm1 (by simp)
        obtain ⟨m1, hl, hmsub⟩ := hdir
        obtain ⟨m2s, hrun0, _, _⟩ := ih hash sub m1 (p ++ [name]) hssub hwsub hmsub
        have harm :
            synchronize_dir hash (.dir sub) (.dir m) p name =
              .ok (.dir (setEntry m name (.dir m2s)), emptyFileEventsList sub (p ++ [name])) := by
          simp [synchronize_dir, hl, hrun0]
        obtain ⟨m2, hrun, hframe, hmem2⟩ :=
          cont (setEntry m name (.dir m2s))
            (fun x hx => by rw [lookup_setEntry]; simp [hx])
            (by
              intro x hx
              rcases mem_setEntry m name (.dir m2s) x hx with hx2 | hx2
              · exact Or.inl hx2
              · subst hx2
                exact Or.inr ⟨rfl, rfl⟩)
        refine ⟨m2, ?_, hframe, hmem2⟩
        rw [emptyFileEventsList_cons, emptyFileEventsEntry_dir]
        simp [src_to_rep_items, harm, hrun]

/-! ### Lemmas for the Pass 2 deletion claims -/

theorem lookup_eq_none_iff (l : List (String × Entry)) (name : String) :
    lookup l name = none ↔ name ∉ l.map Prod.fst := by
  induction l with
  | nil => simp [lookup]
  | cons h0 t ih =>
    obtain ⟨n0, e0⟩ := h0
    by_cases hn : n0 = name
    · subst hn; simp [lookup]
    · rw [lookup, if_neg hn]
      simp only [List.map_cons, List.mem_cons]
      rw [ih]
      constructor
      · intro h hmem
        rcases hmem with h2 | h2
        · exact hn (by simpa using h2.symm)
        · exact h h2
      · intro h
        exact fun hm => h (Or.inr hm)

theorem mem_name_unique (l : List (String × Entry)) (name : String) (e : Entry)
    (hnd : (l.map Prod.fst).Nodup) (hl : lookup l name = some e) :
    ∀ x ∈ l, x.1 = name → x = (name, e) := by
  induction l with
  | nil => intro x hx; simp at hx
  | cons h0 t ih =>
    obtain ⟨n0, e0⟩ := h0
    simp only [List.map_cons, List.nodup_cons] at hnd
    intro x hx hxn
    rcases List.mem_cons.mp hx with hx1 | hx1
    · subst hx1
      simp only at hxn
      subst hxn
      rw [lookup, if_pos rfl, Option.some.injEq] at hl
      rw [hl]
    · by_cases hn : n0 = name
      · exfalso
        apply hnd.1
        rw [hn, ← hxn]
        exact List.mem_map_of_mem Prod.fst hx1
      · rw [lookup, if_neg hn] at hl
        exact ih hnd.2 hl x hx1 hxn

theorem filter_name_single (l : List (String × Entry)) (name : String) (e : Entry)
    (hnd : (l.map Prod.fst).Nodup) (hl : lookup l name = some e) :
    l.filter (fun x => x.1 == name) = [(name, e)] := by
  induction l with
  | nil => simp [lookup] at hl
  | cons h0 t ih =>
    obtain ⟨n0, e0⟩ := h0
    simp only [List.map_cons, List.nodup_cons] at hnd
    rw [List.filter_cons]
    by_cases hn : n0 = name
    · subst hn
      rw [lookup, if_pos rfl, Option.some.injEq] at hl
      subst hl
      have h2 : t.filter (fun x => x.1 == n0) = [] := by
        rw [List.filter_eq_nil_iff]
        intro x hx he
        rw [beq_iff_eq] at he
        exact hnd.1 (by rw [← he]; exact List.mem_map_of_mem Prod.fst hx)
      simp [h2]
    · have hb : ((n0, e0).1 == name) = false := by simpa using hn
      rw [hb]
      rw [lookup, if_neg hn] at hl
      simpa using ih hnd.2 hl

theorem lookup_filter_dropped (l : List (String × Entry)) (name : String) (e : Entry)
    (q : String × Entry → Bool)
    (hnd : (l.map Prod.fst).Nodup) (hl : lookup l name = some e) (hq : q (name, e) = false) :
    lookup (l.filter q) name = none := by
  rw [lookup_eq_none_iff]
  intro hmem
  obtain ⟨x, hx, hxn⟩ := List.mem_map.mp hmem
  have hxl := List.mem_filter.mp hx
  have hxe := mem_name_unique l name e hnd hl x hxl.1 hxn
  rw [hxe, hq] at hxl
  exact absurd hxl.2 (by simp)

theorem src_to_rep_dir (hash : Content → Content) (s : List (String × Entry))
    (rep : Entry) (p : List String) :
    src_to_rep hash (.dir s) rep p = src_to_rep_items hash s rep p := rfl

/-! ## The claims -/

/-- C1: refuted on the code at a concrete input.  With source
`src/d` (an empty directory) and replica `replica/d/stale` (a file
nested in the common directory `d`), one complete `synchronize` call
returns successfully, emits no event, and leaves `replica/d/stale` in
place — even though path `d/stale` is present in the replica tree and
absent from the source tree.  The convergence invariant stated by the
claim therefore fails: `rep_to_src` is only ever invoked on the two
roots and never recurses into directories present in both trees. -/
theorem synchronize_misses_nested_stale_entry :
    synchronize id (.dir [("d", .dir [])])
        (.dir [("d", .dir [("stale", .file [7])])]) ["replica"] =
      .ok (.dir [("d", .dir [("stale", .file [7])])], []) := rfl

/-- C2: refuted on the code at a concrete input.  Source `d` and
replica `d` both exist and share the child `keep`; the replica's extra
child `d/stale` has no counterpart in the source, yet the Pass 2 entry
point deletes nothing and emits nothing: `rep_to_src` compares only
the immediate children of the two roots and never recurses into a
directory common to both trees. -/
theorem rep_to_src_does_not_recurse :
    rep_to_src (.dir [("d", .dir [("keep", .file [2])])])
        (.dir [("d", .dir [("keep", .file [2]), ("stale", .file [3])])]) ["replica"] =
      .ok (.dir [("d", .dir [("keep", .file [2]), ("stale", .file [3])])], []) := rfl

/-- C3 counterexample: `synchronize` is not idempotent.  With a source
holding one zero-length file `a` the first run creates `replica/a` and
logs one event; the second run, on the replica state the first run
produced and with no change to the source, logs the same
`Created empty file` event again instead of zero events. -/
theorem second_run_emits_event_for_empty_file :
    synchronize id (.dir [("a", .file [])]) (.dir []) ["replica"] =
      .ok (.dir [("a", .file [])], [("Created empty file", ["replica", "a"])]) ∧
    synchronize id (.dir [("a", .file [])]) (.dir [("a", .file [])]) ["replica"] =
      .ok (.dir [("a", .file [])], [("Created empty file", ["replica", "a"])]) :=
  ⟨rfl, rfl⟩

/-- C3 amended: for every well-formed source tree and every replica
tree free of file/directory type conflicts with it, the second of two
consecutive `synchronize` runs (no source change in between) succeeds
and emits exactly one `Created empty file` event per zero-length
source file — and hence zero events whenever the source contains no
zero-length file.  All other mutating actions are absent from the
second run's log. -/
theorem second_run_events_are_exactly_empty_file_events
    (hash : Content → Content) (ls lr : List (String × Entry)) (p : List String)
    (hwf : wfItems ls = true) (hcompat : compatList ls lr = true) :
    ∃ r1 ev1 r2,
      synchronize hash (.dir ls) (.dir lr) p = .ok (r1, ev1) ∧
      synchronize hash (.dir ls) r1 p = .ok (r2, emptyFileEventsList ls p) ∧
      (hasEmptyFileList ls = false → emptyFileEventsList ls p = []) := by
  obtain ⟨l1, ev1a, hrun1, hmir1, _⟩ :=
    pass1_main (sizeOf ls) hash ls lr p (le_refl _) hwf hcompat
  have hsrc1 : src_to_rep hash (.dir ls) (.dir lr) p = .ok (.dir l1, ev1a) := by
    rw [src_to_rep_dir]; exact hrun1
  have hp2 : rep_to_src (.dir ls) (.dir l1) p =
      .ok (.dir (l1.filter (keepEntry (.dir ls))),
           (l1.filter (fun x => !keepEntry (.dir ls) x)).map
             (fun x => ("Deleted", p ++ [x.1]))) := by
    simp [rep_to_src, get_dir_content, rep_to_src_items_eq]
  have hmir2 : mirrorsList hash ls (l1.filter (keepEntry (.dir ls))) = true := by
    rw [mirrorsList_congr hash ls _ l1
      (fun n hn => lookup_filter_keep (.dir ls) l1 n
        (by simpa [path_exists_in] using lookup_isSome_of_mem_names ls n hn))]
    exact hmir1
  obtain ⟨m2, hrun2, _, hmem2⟩ :=
    pass1_mirrored (sizeOf ls) hash ls (l1.filter (keepEntry (.dir ls))) p
      (le_refl _) hwf hmir2
  have hkeep : ∀ x ∈ m2, keepEntry (.dir ls) x = true := by
    intro x hx
    rcases hmem2 x hx with hx2 | hx2
    · exact (List.mem_filter.mp hx2).2
    · have hex : path_exists_in (.dir ls) x.1 = true := by
        simpa [path_exists_in] using lookup_isSome_of_mem_names ls x.1 hx2.1
      simp [keepEntry, hex]
  obtain ⟨hfk, hfd⟩ := filter_keep_all (.dir ls) m2 hkeep
  have hp2b : rep_to_src (.dir ls) (.dir m2) p = .ok (.dir m2, []) := by
    simp [rep_to_src, get_dir_content, rep_to_src_items_eq, hfk, hfd]
  have hsrc2 : src_to_rep hash (.dir ls) (.dir (l1.filter (keepEntry (.dir ls)))) p =
      .ok (.dir m2, emptyFileEventsList ls p) := by
    rw [src_to_rep_dir]; exact hrun2
  refine ⟨.dir (l1.filter (keepEntry (.dir ls))),
    ev1a ++ (l1.filter (fun x => !keepEntry (.dir ls) x)).map
      (fun x => ("Deleted", p ++ [x.1])),
    .dir m2, ?_, ?_, ?_⟩
  · simp [synchronize, hsrc1, hp2]
  · simp [synchronize, hsrc2, hp2b]
  · exact emptyFileEventsList_of_no_empty (sizeOf ls) ls p (le_refl _)

/-- C3 amended, witness: a concrete source with a zero-length file, a
non-empty file, a subdirectory, and a stale replica entry. -/
theorem second_run_events_witness :
    ∃ r1 ev1 r2,
      synchronize id (.dir [("a", Entry.file []), ("d", Entry.dir [("f", Entry.file [1])])])
          (.dir [("z", Entry.file [9])]) ["replica"] = .ok (r1, ev1) ∧
      synchronize id (.dir [("a", Entry.file []), ("d", Entry.dir [("f", Entry.file [1])])])
          r1 ["replica"] =
        .ok (r2, emptyFileEventsList
          [("a", Entry.file []), ("d", Entry.dir [("f", Entry.file [1])])] ["replica"]) ∧
      (hasEmptyFileList [("a", Entry.file []), ("d", Entry.dir [("f", Entry.file [1])])] = false →
        emptyFileEventsList
          [("a", Entry.file []), ("d", Entry.dir [("f", Entry.file [1])])] ["replica"] = []) :=
  second_run_events_are_exactly_empty_file_events id
    [("a", Entry.file []), ("d", Entry.dir [("f", Entry.file [1])])]
    [("z", Entry.file [9])] ["replica"] (by decide) (by decide)

/-- C4: the Change Detector.  For any digest function whatsoever, two
regular files of different byte lengths are reported different (the
digest function is never consulted, which is the model's rendition of
"without reading either file's content"), and two files of equal
length are reported equal exactly when their digests agree.
`same_files` is a pure function of the two entries: it returns no
state and no events, so it has no side effects by construction. -/
theorem same_files_size_then_digest (hash : Content → Content) (a b : Content) :
    (a.length ≠ b.length → same_files hash (.file a) (.file b) = .ok false) ∧
    (a.length = b.length → same_files hash (.file a) (.file b) = .ok (hash a == hash b)) := by
  constructor
  · intro h
    rw [same_files_files]
    have hb : (a.length == b.length) = false := by simpa using h
    simp [hb]
  · intro h
    rw [same_files_files]
    have hb : (a.length == b.length) = true := by simpa using h
    simp [hb]

/-- C4 witness: a shorter and a longer file with identical prefix; two
distinct files of equal length. -/
theorem same_files_size_then_digest_witness :
    ([1].length ≠ [1, 2].length ∧ same_files id (.file [1]) (.file [1, 2]) = .ok false) ∧
    ([1].length = [2].length ∧ same_files id (.file [1]) (.file [2]) = .ok (id [1] == id [2])) :=
  ⟨⟨by decide, (same_files_size_then_digest id [1] [1, 2]).1 (by decide)⟩,
   ⟨rfl, (same_files_size_then_digest id [1] [2]).2 rfl⟩⟩

/-- C5: for a zero-length source file whose replica entry is absent or
is a regular file (of any content, including an already-empty file),
Pass 1's file handler removes the old entry, creates a fresh empty
file, emits exactly one `Created empty file` event, and afterwards the
replica holds a zero-length file under that name. -/
theorem empty_source_file_recreates_replica_file
    (hash : Content → Content) (c : Content) (l : List (String × Entry))
    (p : List String) (name : String)
    (hc : c.length = 0)
    (hrep : lookup l name = none ∨ ∃ c0, lookup l name = some (.file c0)) :
    synchronize_file hash c (.dir l) p name =
      .ok (.dir (eraseKey l name ++ [(name, .file [])]),
           [("Created empty file", p ++ [name])]) ∧
    lookup (eraseKey l name ++ [(name, .file [])]) name = some (.file []) := by
  constructor
  · rcases hrep with hl | ⟨c0, hl⟩ <;> simp [synchronize_file, hc, hl]
  · rw [lookup_erase_append]; simp

/-- C5 witness: the replica file is already an empty file, and the
event is emitted all the same. -/
theorem empty_source_file_recreates_replica_file_witness :
    ([] : Content).length = 0 ∧
    lookup [("a", Entry.file [])] "a" = some (.file []) ∧
    synchronize_file id [] (.dir [("a", Entry.file [])]) ["replica"] "a" =
      .ok (.dir (eraseKey [("a", Entry.file [])] "a" ++ [("a", .file [])]),
           [("Created empty file", ["replica", "a"])]) ∧
    lookup (eraseKey [("a", Entry.file [])] "a" ++ [("a", .file [])]) "a" =
      some (.file []) := by
  refine ⟨rfl, rfl, ?_⟩
  exact empty_source_file_recreates_replica_file id [] [("a", Entry.file [])]
    ["replica"] "a" rfl (Or.inr ⟨[], rfl⟩)

/-- C6: for a non-empty source file whose replica file exists: when
the Change Detector reports the files different, the replica file is
overwritten in place with the source content and exactly one `Updated`
event is emitted; when it reports them identical, the replica state is
returned unchanged and no event is emitted. -/
theorem nonempty_source_file_update_or_skip
    (hash : Content → Content) (c c1 : Content) (l : List (String × Entry))
    (p : List String) (name : String)
    (hc : c.length ≠ 0) (hl : lookup l name = some (.file c1)) :
    (same_files hash (.file c) (.file c1) = .ok false →
      synchronize_file hash c (.dir l) p name =
        .ok (.dir (setEntry l name (.file c)), [("Updated", p ++ [name])])) ∧
    (same_files hash (.file c) (.file c1) = .ok true →
      synchronize_file hash c (.dir l) p name = .ok (.dir l, [])) := by
  constructor
  · intro hsf
    have hb : (c.length == c1.length && hash c == hash c1) = false := by
      rw [same_files_files] at hsf
      simpa using hsf
    simp [synchronize_file, hc, hl, same_files_files, hb]
  · intro hsf
    have hb : (c.length == c1.length && hash c == hash c1) = true := by
      rw [same_files_files] at hsf
      simpa using hsf
    simp [synchronize_file, hc, hl, same_files_files, hb]

/-- C6 witness: an update on same-length different content, and a
no-op on identical content. -/
theorem nonempty_source_file_update_or_skip_witness :
    (same_files id (.file [1, 2]) (.file [9, 9]) = .ok false ∧
     synchronize_file id [1, 2] (.dir [("f", Entry.file [9, 9])]) ["r"] "f" =
       .ok (.dir (setEntry [("f", Entry.file [9, 9])] "f" (.file [1, 2])),
            [("Updated", ["r", "f"])])) ∧
    (same_files id (.file [5]) (.file [5]) = .ok true ∧
     synchronize_file id [5] (.dir [("g", Entry.file [5])]) ["r"] "g" =
       .ok (.dir [("g", Entry.file [5])], [])) :=
  ⟨⟨rfl, (nonempty_source_file_update_or_skip id [1, 2] [9, 9]
      [("f", Entry.file [9, 9])] ["r"] "f" (by decide) rfl).1 rfl⟩,
   ⟨rfl, (nonempty_source_file_update_or_skip id [5] [5]
      [("g", Entry.file [5])] ["r"] "g" (by decide) rfl).2 rfl⟩⟩

/-- C7: when Pass 2 meets a replica directory whose name has no entry
in the source, the whole subtree is deleted and exactly one `Deleted`
event is emitted, naming the subtree's root; every event of the pass
names a direct child of the scanned directory, so no event names any
descendant of the deleted directory. -/
theorem stale_replica_directory_single_delete_event
    (src : Entry) (l : List (String × Entry)) (p : List String)
    (name : String) (sub : List (String × Entry))
    (hnd : (l.map Prod.fst).Nodup)
    (hl : lookup l name = some (.dir sub))
    (hex : path_exists_in src name = false) :
    ∃ l2 ev,
      rep_to_src src (.dir l) p = .ok (.dir l2, ev) ∧
      ev.filter (fun x => x.2 == p ++ [name]) = [("Deleted", p ++ [name])] ∧
      (∀ x ∈ ev, x.2.length = p.length + 1) ∧
      lookup l2 name = none := by
  refine ⟨l.filter (keepEntry src),
    (l.filter (fun x => !keepEntry src x)).map (fun x => ("Deleted", p ++ [x.1])),
    ?_, ?_, ?_, ?_⟩
  · simp [rep_to_src, get_dir_content, rep_to_src_items_eq]
  · rw [List.filter_map]
    have hq : ∀ a ∈ l.filter (fun x => !keepEntry src x),
        ((fun x => x.2 == p ++ [name]) ∘ fun x => (("Deleted", p ++ [x.1]) : Event)) a =
          (fun x => x.1 == name) a := by
      intro a _
      simp only [Function.comp_apply]
      apply Bool.eq_iff_iff.mpr
      simp only [beq_iff_eq]
      rw [List.append_right_inj]
      simp
    rw [List.filter_congr hq, List.filter_filter]
    have han : ∀ a ∈ l, ((a.1 == name) && !keepEntry src a) = (a.1 == name) := by
      intro a ha
      by_cases h : a.1 = name
      · have hae := mem_name_unique l name (.dir sub) hnd hl a ha h
        rw [hae]
        simp [keepEntry, hex, isOther]
      · have hb : (a.1 == name) = false := by simpa using h
        simp [hb]
    rw [List.filter_congr han, filter_name_single l name (.dir sub) hnd hl]
    rfl
  · intro x hx
    obtain ⟨y, _, rfl⟩ := List.mem_map.mp hx
    simp
  · exact lookup_filter_dropped l name (.dir sub) (keepEntry src) hnd hl
      (by simp [keepEntry, hex, isOther])

/-- C7 witness: the stale replica directory `old` with two files in it
is deleted with one event and no per-child events. -/
theorem stale_replica_directory_single_delete_event_witness :
    ((([("old", Entry.dir [("x", Entry.file [1]), ("y", Entry.file [2])])] :
        List (String × Entry)).map Prod.fst).Nodup ∧
     lookup [("old", Entry.dir [("x", Entry.file [1]), ("y", Entry.file [2])])] "old" =
       some (.dir [("x", Entry.file [1]), ("y", Entry.file [2])]) ∧
     path_exists_in (.dir []) "old" = false) ∧
    (∃ l2 ev,
      rep_to_src (.dir []) (.dir [("old", Entry.dir [("x", Entry.file [1]), ("y", Entry.file [2])])])
          ["r"] = .ok (.dir l2, ev) ∧
      ev.filter (fun x => x.2 == ["r"] ++ ["old"]) = [("Deleted", ["r"] ++ ["old"])] ∧
      (∀ x ∈ ev, x.2.length = ["r"].length + 1) ∧
      lookup l2 "old" = none) :=
  ⟨⟨by decide, rfl, rfl⟩,
   stale_replica_directory_single_delete_event (.dir [])
     [("old", Entry.dir [("x", Entry.file [1]), ("y", Entry.file [2])])] ["r"] "old"
     [("x", Entry.file [1]), ("y", Entry.file [2])] (by decide) rfl rfl⟩

/-- C8: nothing inside the Tree Synchronizer catches or downgrades an
I/O error.  Whenever Pass 1 raises, `synchronize` returns that very
error with the partial replica state and the events logged before the
abort; whenever Pass 1 succeeds and Pass 2 raises, `synchronize`
returns Pass 2's error, the partial state, and the events of the
completed Pass 1 followed by those of the aborted Pass 2. -/
theorem io_errors_propagate_out_of_synchronize
    (hash : Content → Content) (src rep : Entry) (p : List String) :
    (∀ err t ev, src_to_rep hash src rep p = .error (err, t, ev) →
      synchronize hash src rep p = .error (err, t, ev)) ∧
    (∀ t1 ev1 err t2 ev2, src_to_rep hash src rep p = .ok (t1, ev1) →
      rep_to_src src t1 p = .error (err, t2, ev2) →
      synchronize hash src rep p = .error (err, t2, ev1 ++ ev2)) := by
  constructor
  · intro err t ev h
    simp [synchronize, h]
  · intro t1 ev1 err t2 ev2 h1 h2
    simp [synchronize, h1, h2]

/-- C8 witness: an `IsADirectoryError` raised in Pass 1 (empty source
file vs. replica directory of the same name) and a
`NotADirectoryError` raised in Pass 2 (listing a replica root that is
a file) both surface unchanged from `synchronize`. -/
theorem io_errors_propagate_witness :
    synchronize id (.dir [("x", Entry.file [])]) (.dir [("x", Entry.dir [])]) ["r"] =
      .error (.isADirectoryError, .dir [("x", Entry.dir [])], []) ∧
    synchronize id (.dir []) (.file [1]) ["r"] =
      .error (.notADirectoryError, .file [1], ([] : List Event) ++ []) :=
  ⟨(io_errors_propagate_out_of_synchronize id (.dir [("x", Entry.file [])])
      (.dir [("x", Entry.dir [])]) ["r"]).1 .isADirectoryError
      (.dir [("x", Entry.dir [])]) [] rfl,
   (io_errors_propagate_out_of_synchronize id (.dir []) (.file [1]) ["r"]).2
      (.file [1]) [] .notADirectoryError (.file [1]) [] rfl rfl⟩

/-- C9: Pass 1 skips every source entry that is neither a regular file
nor a directory: the loop iteration for such an entry leaves the
replica untouched and emits nothing — running the loop with the entry
at its head is the same as running it on the remaining entries
alone. -/
theorem pass1_skips_special_source_entries
    (hash : Content → Content) (name : String) (rest : List (String × Entry))
    (rep : Entry) (p : List String) :
    src_to_rep_items hash ((name, .other) :: rest) rep p =
      src_to_rep_items hash rest rep p := by
  cases h : src_to_rep_items hash rest rep p with
  | error out =>
    obtain ⟨err, r2, ev2⟩ := out
    simp [src_to_rep_items, h]
  | ok out =>
    obtain ⟨r2, ev2⟩ := out
    simp [src_to_rep_items, h]

/-- C10 counterexample: deletion is not decided purely by name
existence.  The replica entry `s` is neither a regular file nor a
directory; no entry named `s` exists in the (empty) source, yet Pass 2
deletes nothing and logs nothing, refuting the claimed
"deleted if and only if no source entry of the name exists". -/
theorem special_replica_entry_not_deleted :
    path_exists_in (.dir []) "s" = false ∧
    rep_to_src (.dir []) (.dir [("s", .other)]) ["r"] =
      .ok (.dir [("s", .other)], []) :=
  ⟨rfl, rfl⟩

/-- C10 amended: Pass 2 keeps exactly the replica entries whose name
exists in the source (`path_exists_in`, a pure name-existence test
satisfied by a source entry of any type) together with the replica
entries that are neither regular files nor directories; it deletes all
the others, emitting one `Deleted` event each.  In particular a
replica file or directory is deleted if and only if no source entry of
its name exists, regardless of the types involved. -/
theorem rep_to_src_deletes_by_name_existence
    (src : Entry) (l : List (String × Entry)) (p : List String) :
    rep_to_src src (.dir l) p =
      .ok (.dir (l.filter (keepEntry src)),
           (l.filter (fun x => !keepEntry src x)).map
             (fun x => ("Deleted", p ++ [x.1]))) := by
  simp [rep_to_src, get_dir_content, rep_to_src_items_eq]

end Synchronization
